import Mathlib

/-!
Shallow embedding of the crankshaft-tui event/state core
(`src/crankshaft-tui/src/app.rs` and the event loop of
`src/crankshaft-tui/src/lib.rs`).

Modelling decisions:
* `f64` progress / usage values are modelled as exact rationals (`ℚ`);
  the spec's data model declares them real numbers in `[0.0, 1.0]`.
* Rust's `HashMap<String, Task>` is modelled as an association list
  `List (String × Task)`; the registry keeps it in lockstep with the
  ordered sequence `task_ids`, which the invariants below make precise.
* `usize` (`tab_index`) is modelled as `Nat`.
* `crossterm::event::KeyCode` is modelled by the constructors the code
  matches on, plus a catch-all `Other` for every other key.
-/

namespace Crankshaft

/-- `TaskStatus` from app.rs. -/
inductive TaskStatus
  | Pending
  | Running
  | Completed
  | Failed
deriving DecidableEq, Repr

/-- `Task` from app.rs; `f64` fields become `ℚ`. -/
structure Task where
  id : String
  name : String
  status : TaskStatus
  progress : ℚ
  cpu_usage : ℚ
  memory_usage : ℚ
deriving DecidableEq, Repr

/-- The key codes `App::handle_key` distinguishes; `Other` stands for
every `KeyCode` hit by the wildcard arm. -/
inductive KeyCode
  | Char (c : Char)
  | Esc
  | Tab
  | BackTab
  | Down
  | Up
  | Other
deriving DecidableEq, Repr

/-- `App` from app.rs: the `HashMap` becomes an association list. -/
structure App where
  tasks : List (String × Task)
  selected_task_id : Option String
  task_ids : List String
  should_quit : Bool
  tab_index : Nat
deriving DecidableEq, Repr

/-- `Iterator::position`: index of the first element equal to `id`. -/
def position (id : String) : List String → Option Nat
  | [] => none
  | x :: xs => if x = id then some 0 else (position id xs).map (· + 1)

/-- `App::next_task` from app.rs (lines 140–152). -/
def App.next_task (s : App) : App :=
  if s.task_ids.isEmpty then s
  else
    let current_index :=
      match s.selected_task_id with
      | some id => (position id s.task_ids).getD 0
      | none => 0
    let next_index := (current_index + 1) % s.task_ids.length
    { s with selected_task_id := some (s.task_ids.getD next_index "") }

/-- `App::previous_task` from app.rs (lines 154–172). -/
def App.previous_task (s : App) : App :=
  if s.task_ids.isEmpty then s
  else
    let current_index :=
      match s.selected_task_id with
      | some id => (position id s.task_ids).getD 0
      | none => 0
    let previous_index :=
      if current_index = 0 then s.task_ids.length - 1
      else current_index - 1
    { s with selected_task_id := some (s.task_ids.getD previous_index "") }

/-- `App::handle_key` from app.rs (lines 98–122); the returned `Bool`
is the function's return value. -/
def App.handle_key (s : App) (k : KeyCode) : App × Bool :=
  match k with
  | .Char c =>
      if c = 'q' then ({ s with should_quit := true }, true)
      else (s, false)
  | .Esc => ({ s with should_quit := true }, true)
  | .Tab => ({ s with tab_index := (s.tab_index + 1) % 3 }, false)
  | .BackTab => ({ s with tab_index := (s.tab_index + 2) % 3 }, false)
  | .Down => (s.next_task, false)
  | .Up => (s.previous_task, false)
  | .Other => (s, false)

/-- The per-task body of `App::update`: a `Running` task gains 0.01
progress, clamped to 1.0 with transition to `Completed` once it reaches
or exceeds 1.0; everything else is untouched. -/
def updateTask (t : Task) : Task :=
  if t.status = TaskStatus.Running then
    let p := t.progress + 1 / 100
    if 1 ≤ p then { t with progress := 1, status := TaskStatus.Completed }
    else { t with progress := p }
  else t

/-- `App::update` from app.rs (lines 125–137): applies `updateTask` to
every stored task, in place (keys untouched). -/
def App.update (s : App) : App :=
  { s with tasks := s.tasks.map fun kv => (kv.1, updateTask kv.2) }

/-- The sample task built for index `i` by `App::default`. -/
def sampleTask (i : Nat) : Task :=
  let status :=
    match i % 4 with
    | 0 => TaskStatus.Pending
    | 1 => TaskStatus.Running
    | 2 => TaskStatus.Completed
    | _ => TaskStatus.Failed
  let progress :=
    match status with
    | TaskStatus.Pending => 0
    | TaskStatus.Running => ((i % 10 : Nat) : ℚ) / 10
    | TaskStatus.Completed => 1
    | TaskStatus.Failed => ((i % 10 : Nat) : ℚ) / 10
  { id := "task-" ++ toString i
    name := "Sample Task " ++ toString i
    status := status
    progress := progress
    cpu_usage := ((i % 100 : Nat) : ℚ) / 100
    memory_usage := ((i % 80 : Nat) : ℚ) / 100 }

/-- `App::default` from app.rs (lines 46–89): nineteen sample tasks,
ids `task-1` … `task-19`, no selection, tab 0, not quitting. -/
def App.default : App :=
  { tasks := (List.range' 1 19).map fun i => ("task-" ++ toString i, sampleTask i)
    selected_task_id := none
    task_ids := (List.range' 1 19).map fun i => "task-" ++ toString i
    should_quit := false
    tab_index := 0 }

/-- `Event` from event.rs. -/
inductive Event
  | Input (k : KeyCode)
  | Tick
deriving DecidableEq, Repr

/-- One transition of the application state by one event, as the loop
in `run_app` applies it (`handle_key` for input, `update` for tick). -/
def step (s : App) (e : Event) : App :=
  match e with
  | .Input k => (s.handle_key k).1
  | .Tick => s.update

/-- A finite event trace applied in order. -/
def runSteps (s : App) (es : List Event) : App := es.foldl step s

/-- `run_app` from lib.rs (lines 43–77), driven by a finite event
stream (the end of the list plays the channel-closed `Err` case).
Returns the ordered list of states passed to `terminal.draw` (the
render collaborator) and the final state.  Each iteration draws first,
then pulls one event, applies it, and breaks when `handle_key` returned
`true` or `should_quit` is set. -/
def runApp : App → List Event → List App × App
  | s, [] => ([s], s)
  | s, Event.Input k :: es =>
      let r := s.handle_key k
      if r.2 then ([s], r.1)
      else if r.1.should_quit then ([s], r.1)
      else
        let c := runApp r.1 es
        (s :: c.1, c.2)
  | s, Event.Tick :: es =>
      let s1 := s.update
      if s1.should_quit then ([s], s1)
      else
        let c := runApp s1 es
        (s :: c.1, c.2)

/-- Whether processing event `e` from state `s` makes the loop break
at the end of that iteration. -/
def stepQuits (s : App) (e : Event) : Bool :=
  match e with
  | .Input k => (s.handle_key k).2 || ((s.handle_key k).1).should_quit
  | .Tick => (s.update).should_quit

/-- `n` consecutive calls to `next_task`. -/
def iterNext : Nat → App → App
  | 0, s => s
  | n + 1, s => iterNext n s.next_task

/-- A sequence of selection calls: `true` is `next_task`, `false` is
`previous_task`. -/
def applyCalls (s : App) : List Bool → App
  | [] => s
  | b :: bs => applyCalls (if b then s.next_task else s.previous_task) bs

/-- The standing registry invariant (C4): the selection is either unset
or an id present in the ordered sequence, and the mapping holds exactly
the ids of the ordered sequence, in order and without duplicates. -/
def AppInv (s : App) : Prop :=
  (s.selected_task_id = none ∨
    ∃ id, id ∈ s.task_ids ∧ s.selected_task_id = some id) ∧
  s.tasks.map Prod.fst = s.task_ids ∧
  s.task_ids.Nodup

/-- The progress invariant (C8): every stored `Completed` task has
progress exactly 1. -/
def CompletedInv (s : App) : Prop :=
  ∀ kv, kv ∈ s.tasks → kv.2.status = TaskStatus.Completed → kv.2.progress = 1

/-! ### Concrete fixtures used by witnesses and counterexamples -/

def taskA : Task :=
  { id := "a", name := "A", status := TaskStatus.Pending, progress := 0,
    cpu_usage := 0, memory_usage := 0 }

def taskB : Task :=
  { id := "b", name := "B", status := TaskStatus.Running, progress := 991 / 1000,
    cpu_usage := 0, memory_usage := 0 }

/-- A two-task registry with no selection. -/
def twoTaskApp : App :=
  { tasks := [("a", taskA), ("b", taskB)], selected_task_id := none,
    task_ids := ["a", "b"], should_quit := false, tab_index := 0 }

/-- A registry with no tasks at all. -/
def emptyApp : App :=
  { tasks := [], selected_task_id := none, task_ids := [],
    should_quit := false, tab_index := 0 }

/-- `twoTaskApp` with the first task selected. -/
def selApp : App := { twoTaskApp with selected_task_id := some "a" }

/-! ### Frame lemmas for the registry operations -/

theorem next_task_frame (s : App) :
    s.next_task.tasks = s.tasks ∧ s.next_task.task_ids = s.task_ids ∧
    s.next_task.should_quit = s.should_quit ∧ s.next_task.tab_index = s.tab_index := by
  unfold App.next_task
  split <;> simp

theorem previous_task_frame (s : App) :
    s.previous_task.tasks = s.tasks ∧ s.previous_task.task_ids = s.task_ids ∧
    s.previous_task.should_quit = s.should_quit ∧
    s.previous_task.tab_index = s.tab_index := by
  unfold App.previous_task
  split <;> simp

theorem update_frame (s : App) :
    s.update.selected_task_id = s.selected_task_id ∧ s.update.task_ids = s.task_ids ∧
    s.update.should_quit = s.should_quit ∧ s.update.tab_index = s.tab_index := by
  simp [App.update]

/-! ### Lemmas about `position` and selection -/

theorem position_lt_length {id : String} :
    ∀ {l : List String} {i : Nat}, position id l = some i → i < l.length := by
  intro l
  induction l with
  | nil => intro i h; simp [position] at h
  | cons x xs ih =>
      intro i h
      simp only [position] at h
      by_cases hx : x = id
      · rw [if_pos hx] at h
        cases h
        simp
      · rw [if_neg hx] at h
        obtain ⟨j, hj, rfl⟩ := Option.map_eq_some'.mp h
        have := ih hj
        simp only [List.length_cons]
        omega

theorem position_get_self :
    ∀ (l : List String), l.Nodup → ∀ (k : Nat) (h : k < l.length),
      position (l.get ⟨k, h⟩) l = some k := by
  intro l
  induction l with
  | nil => intro _ k h; simp at h
  | cons x xs ih =>
      intro hnd k h
      cases k with
      | zero => simp [position]
      | succ k =>
          have hk : k < xs.length := by
            simpa using Nat.lt_of_succ_lt_succ h
          have hx : ¬(x = xs[k]) := by
            intro he
            exact (List.nodup_cons.mp hnd).1 (he ▸ List.getElem_mem hk)
          have hih : position xs[k] xs = some k := by
            simpa [List.get_eq_getElem] using ih (List.nodup_cons.mp hnd).2 k hk
          have hget : (x :: xs).get ⟨k + 1, h⟩ = xs[k] := rfl
          rw [hget]
          simp [position, hx, hih]

theorem getD_mem (l : List String) (i : Nat) (hi : i < l.length) :
    l.getD i "" ∈ l := by
  rw [List.getD_eq_getElem l "" hi]
  exact List.getElem_mem hi

theorem next_task_sel (s : App) (hne : s.task_ids ≠ []) :
    ∃ id, id ∈ s.task_ids ∧ s.next_task.selected_task_id = some id := by
  have hlen : 0 < s.task_ids.length := List.length_pos.mpr hne
  have he : ¬(s.task_ids.isEmpty = true) := by
    simp [List.isEmpty_iff, hne]
  unfold App.next_task
  rw [if_neg he]
  refine ⟨_, getD_mem _ _ (Nat.mod_lt _ hlen), rfl⟩

theorem previous_task_sel (s : App) (hne : s.task_ids ≠ []) :
    ∃ id, id ∈ s.task_ids ∧ s.previous_task.selected_task_id = some id := by
  have hlen : 0 < s.task_ids.length := List.length_pos.mpr hne
  have he : ¬(s.task_ids.isEmpty = true) := by
    simp [List.isEmpty_iff, hne]
  unfold App.previous_task
  rw [if_neg he]
  rcases hsel : s.selected_task_id with _ | id
  · simp only [hsel]
    exact ⟨_, getD_mem _ _ (by split <;> omega), rfl⟩
  · simp only [hsel]
    rcases hpos : position id s.task_ids with _ | i
    · simp only [hpos, Option.getD_none]
      exact ⟨_, getD_mem _ _ (by split <;> omega), rfl⟩
    · simp only [hpos, Option.getD_some]
      have hi := position_lt_length hpos
      exact ⟨_, getD_mem _ _ (by split <;> omega), rfl⟩

/-- C6: the Tab key sets `tab_index := (tab_index + 1) % 3` and BackTab
sets `tab_index := (tab_index + 2) % 3`; three of either return to
`tab_index % 3` (period 3), and from `tab_index = 0` repeated Tab gives
1, 2, 0 while repeated BackTab gives 2, 1, 0. -/
theorem tab_index_cycle (s : App) :
    ((s.handle_key KeyCode.Tab).1.tab_index = (s.tab_index + 1) % 3) ∧
    ((s.handle_key KeyCode.BackTab).1.tab_index = (s.tab_index + 2) % 3) ∧
    ((((s.handle_key KeyCode.Tab).1.handle_key KeyCode.Tab).1.handle_key
        KeyCode.Tab).1.tab_index = s.tab_index % 3) ∧
    ((((s.handle_key KeyCode.BackTab).1.handle_key KeyCode.BackTab).1.handle_key
        KeyCode.BackTab).1.tab_index = s.tab_index % 3) ∧
    (s.tab_index = 0 →
      (s.handle_key KeyCode.Tab).1.tab_index = 1 ∧
      ((s.handle_key KeyCode.Tab).1.handle_key KeyCode.Tab).1.tab_index = 2 ∧
      (((s.handle_key KeyCode.Tab).1.handle_key KeyCode.Tab).1.handle_key
        KeyCode.Tab).1.tab_index = 0 ∧
      (s.handle_key KeyCode.BackTab).1.tab_index = 2 ∧
      ((s.handle_key KeyCode.BackTab).1.handle_key KeyCode.BackTab).1.tab_index = 1 ∧
      (((s.handle_key KeyCode.BackTab).1.handle_key KeyCode.BackTab).1.handle_key
        KeyCode.BackTab).1.tab_index = 0) := by
  simp [App.handle_key]
  omega

/-- Witness for `tab_index_cycle` at `emptyApp` (whose `tab_index` is 0). -/
theorem tab_index_cycle_witness :
    (emptyApp.handle_key KeyCode.Tab).1.tab_index = 1 ∧
    ((emptyApp.handle_key KeyCode.Tab).1.handle_key KeyCode.Tab).1.tab_index = 2 ∧
    (((emptyApp.handle_key KeyCode.Tab).1.handle_key KeyCode.Tab).1.handle_key
      KeyCode.Tab).1.tab_index = 0 ∧
    (emptyApp.handle_key KeyCode.BackTab).1.tab_index = 2 ∧
    ((emptyApp.handle_key KeyCode.BackTab).1.handle_key KeyCode.BackTab).1.tab_index = 1 ∧
    (((emptyApp.handle_key KeyCode.BackTab).1.handle_key KeyCode.BackTab).1.handle_key
      KeyCode.BackTab).1.tab_index = 0 :=
  (tab_index_cycle emptyApp).2.2.2.2 rfl

/-- C7: on an empty id sequence, `next_task` and `previous_task` return
the state entirely unchanged; in particular an unset selection stays
unset and no out-of-bounds index is formed. -/
theorem empty_registry_noop (s : App) (h : s.task_ids = []) :
    s.next_task = s ∧ s.previous_task = s ∧
    (s.selected_task_id = none →
      s.next_task.selected_task_id = none ∧
      s.previous_task.selected_task_id = none) := by
  have h1 : s.next_task = s := by unfold App.next_task; simp [h]
  have h2 : s.previous_task = s := by unfold App.previous_task; simp [h]
  refine ⟨h1, h2, fun hs => ?_⟩
  rw [h1, h2]
  exact ⟨hs, hs⟩

/-- Witness for `empty_registry_noop` at `emptyApp`. -/
theorem empty_registry_noop_witness :
    emptyApp.next_task = emptyApp ∧ emptyApp.previous_task = emptyApp ∧
    (emptyApp.selected_task_id = none →
      emptyApp.next_task.selected_task_id = none ∧
      emptyApp.previous_task.selected_task_id = none) :=
  empty_registry_noop emptyApp rfl

/-- C9: each event kind touches at most one top-level field set:
Tab/BackTab only `tab_index`; Down/Up only `selected_task_id`;
a tick (`update`) only `tasks`; the quit keys only `should_quit`;
any other key changes nothing at all. -/
theorem frame_per_event (s : App) (c : Char) (hc : c ≠ 'q') :
    ((s.handle_key KeyCode.Tab).1.tasks = s.tasks ∧
     (s.handle_key KeyCode.Tab).1.selected_task_id = s.selected_task_id ∧
     (s.handle_key KeyCode.Tab).1.task_ids = s.task_ids ∧
     (s.handle_key KeyCode.Tab).1.should_quit = s.should_quit) ∧
    ((s.handle_key KeyCode.BackTab).1.tasks = s.tasks ∧
     (s.handle_key KeyCode.BackTab).1.selected_task_id = s.selected_task_id ∧
     (s.handle_key KeyCode.BackTab).1.task_ids = s.task_ids ∧
     (s.handle_key KeyCode.BackTab).1.should_quit = s.should_quit) ∧
    ((s.handle_key KeyCode.Down).1.tasks = s.tasks ∧
     (s.handle_key KeyCode.Down).1.task_ids = s.task_ids ∧
     (s.handle_key KeyCode.Down).1.tab_index = s.tab_index ∧
     (s.handle_key KeyCode.Down).1.should_quit = s.should_quit) ∧
    ((s.handle_key KeyCode.Up).1.tasks = s.tasks ∧
     (s.handle_key KeyCode.Up).1.task_ids = s.task_ids ∧
     (s.handle_key KeyCode.Up).1.tab_index = s.tab_index ∧
     (s.handle_key KeyCode.Up).1.should_quit = s.should_quit) ∧
    (s.update.selected_task_id = s.selected_task_id ∧
     s.update.task_ids = s.task_ids ∧
     s.update.tab_index = s.tab_index ∧
     s.update.should_quit = s.should_quit) ∧
    ((s.handle_key (KeyCode.Char 'q')).1.tasks = s.tasks ∧
     (s.handle_key (KeyCode.Char 'q')).1.selected_task_id = s.selected_task_id ∧
     (s.handle_key (KeyCode.Char 'q')).1.task_ids = s.task_ids ∧
     (s.handle_key (KeyCode.Char 'q')).1.tab_index = s.tab_index) ∧
    ((s.handle_key KeyCode.Esc).1.tasks = s.tasks ∧
     (s.handle_key KeyCode.Esc).1.selected_task_id = s.selected_task_id ∧
     (s.handle_key KeyCode.Esc).1.task_ids = s.task_ids ∧
     (s.handle_key KeyCode.Esc).1.tab_index = s.tab_index) ∧
    ((s.handle_key (KeyCode.Char c)).1 = s) ∧
    ((s.handle_key KeyCode.Other).1 = s) := by
  obtain ⟨n1, n2, n3, n4⟩ := next_task_frame s
  obtain ⟨p1, p2, p3, p4⟩ := previous_task_frame s
  obtain ⟨u1, u2, u3, u4⟩ := update_frame s
  refine ⟨?_, ?_, ?_, ?_, ?_, ?_, ?_, ?_, ?_⟩ <;>
    simp [App.handle_key, hc, n1, n2, n3, n4, p1, p2, p3, p4, u1, u2, u3, u4]

/-- Witness for `frame_per_event` at `twoTaskApp` with the non-quit key `x`. -/
theorem frame_per_event_witness :
    ((twoTaskApp.handle_key KeyCode.Tab).1.tasks = twoTaskApp.tasks ∧
     (twoTaskApp.handle_key KeyCode.Tab).1.selected_task_id = twoTaskApp.selected_task_id ∧
     (twoTaskApp.handle_key KeyCode.Tab).1.task_ids = twoTaskApp.task_ids ∧
     (twoTaskApp.handle_key KeyCode.Tab).1.should_quit = twoTaskApp.should_quit) ∧
    ((twoTaskApp.handle_key KeyCode.BackTab).1.tasks = twoTaskApp.tasks ∧
     (twoTaskApp.handle_key KeyCode.BackTab).1.selected_task_id = twoTaskApp.selected_task_id ∧
     (twoTaskApp.handle_key KeyCode.BackTab).1.task_ids = twoTaskApp.task_ids ∧
     (twoTaskApp.handle_key KeyCode.BackTab).1.should_quit = twoTaskApp.should_quit) ∧
    ((twoTaskApp.handle_key KeyCode.Down).1.tasks = twoTaskApp.tasks ∧
     (twoTaskApp.handle_key KeyCode.Down).1.task_ids = twoTaskApp.task_ids ∧
     (twoTaskApp.handle_key KeyCode.Down).1.tab_index = twoTaskApp.tab_index ∧
     (twoTaskApp.handle_key KeyCode.Down).1.should_quit = twoTaskApp.should_quit) ∧
    ((twoTaskApp.handle_key KeyCode.Up).1.tasks = twoTaskApp.tasks ∧
     (twoTaskApp.handle_key KeyCode.Up).1.task_ids = twoTaskApp.task_ids ∧
     (twoTaskApp.handle_key KeyCode.Up).1.tab_index = twoTaskApp.tab_index ∧
     (twoTaskApp.handle_key KeyCode.Up).1.should_quit = twoTaskApp.should_quit) ∧
    (twoTaskApp.update.selected_task_id = twoTaskApp.selected_task_id ∧
     twoTaskApp.update.task_ids = twoTaskApp.task_ids ∧
     twoTaskApp.update.tab_index = twoTaskApp.tab_index ∧
     twoTaskApp.update.should_quit = twoTaskApp.should_quit) ∧
    ((twoTaskApp.handle_key (KeyCode.Char 'q')).1.tasks = twoTaskApp.tasks ∧
     (twoTaskApp.handle_key (KeyCode.Char 'q')).1.selected_task_id = twoTaskApp.selected_task_id ∧
     (twoTaskApp.handle_key (KeyCode.Char 'q')).1.task_ids = twoTaskApp.task_ids ∧
     (twoTaskApp.handle_key (KeyCode.Char 'q')).1.tab_index = twoTaskApp.tab_index) ∧
    ((twoTaskApp.handle_key KeyCode.Esc).1.tasks = twoTaskApp.tasks ∧
     (twoTaskApp.handle_key KeyCode.Esc).1.selected_task_id = twoTaskApp.selected_task_id ∧
     (twoTaskApp.handle_key KeyCode.Esc).1.task_ids = twoTaskApp.task_ids ∧
     (twoTaskApp.handle_key KeyCode.Esc).1.tab_index = twoTaskApp.tab_index) ∧
    ((twoTaskApp.handle_key (KeyCode.Char 'x')).1 = twoTaskApp) ∧
    ((twoTaskApp.handle_key KeyCode.Other).1 = twoTaskApp) :=
  frame_per_event twoTaskApp 'x' (by decide)

/-- C10: `handle_key` returns `true` exactly on the quit keys (`q` or
Esc); the new `should_quit` is the old one OR-ed with that return value,
so it is never reset from `true` to `false`; and `update` never touches
`should_quit`. -/
theorem quit_monotone (s : App) (k : KeyCode) :
    ((s.handle_key k).2 = true ↔ k = KeyCode.Char 'q' ∨ k = KeyCode.Esc) ∧
    ((s.handle_key k).1.should_quit = (s.should_quit || (s.handle_key k).2)) ∧
    (s.should_quit = true → (s.handle_key k).1.should_quit = true) ∧
    s.update.should_quit = s.should_quit := by
  obtain ⟨n1, n2, n3, n4⟩ := next_task_frame s
  obtain ⟨p1, p2, p3, p4⟩ := previous_task_frame s
  cases k with
  | Char c =>
      by_cases hc : c = 'q' <;> simp [App.handle_key, App.update, hc]
  | _ => simp [App.handle_key, App.update, n3, p3]

/-- C1 counterexample: on the two-task registry with ids `["a", "b"]`
and no selection, `next_task` and `previous_task` both select `"b"`
(index 1), not the id at index 0 (`"a"`). -/
theorem unset_selection_first_cex :
    twoTaskApp.selected_task_id = none ∧
    twoTaskApp.task_ids = ["a", "b"] ∧
    twoTaskApp.next_task.selected_task_id = some "b" ∧
    twoTaskApp.previous_task.selected_task_id = some "b" ∧
    ¬(twoTaskApp.next_task.selected_task_id = some "a") ∧
    ¬(twoTaskApp.previous_task.selected_task_id = some "a") := by
  refine ⟨rfl, rfl, ?_, ?_, ?_, ?_⟩ <;> decide

/-- C1 (amended): with a non-empty id sequence of length `N` and no
selection, the current index is taken to be 0, so a single `next_task`
selects the id at index `1 % N` and a single `previous_task` selects
the id at the last index `N - 1`; only for `N = 1` is either the id at
index 0. -/
theorem unset_selection_step (s : App) (hne : s.task_ids ≠ [])
    (hsel : s.selected_task_id = none) :
    s.next_task.selected_task_id =
      some (s.task_ids.getD (1 % s.task_ids.length) "") ∧
    s.previous_task.selected_task_id =
      some (s.task_ids.getD (s.task_ids.length - 1) "") := by
  have he : ¬(s.task_ids.isEmpty = true) := by
    simp [List.isEmpty_iff, hne]
  unfold App.next_task App.previous_task
  rw [if_neg he, if_neg he]
  simp [hsel]

/-- Witness for `unset_selection_step` at `twoTaskApp`. -/
theorem unset_selection_step_witness :
    twoTaskApp.next_task.selected_task_id =
      some (twoTaskApp.task_ids.getD (1 % twoTaskApp.task_ids.length) "") ∧
    twoTaskApp.previous_task.selected_task_id =
      some (twoTaskApp.task_ids.getD (twoTaskApp.task_ids.length - 1) "") :=
  unset_selection_step twoTaskApp (by decide) rfl

/-- C2: `update` maps the per-task body over every stored task, keeping
ids; a `Running` task gains exactly 0.01 progress, clamped to exactly 1
with a transition to `Completed` once the incremented value reaches or
exceeds 1; any other status is untouched; progress never decreases
(within the declared domain `progress ≤ 1`); a `Completed` task is
never mutated by later ticks; and a `Running` task at progress 0.991
becomes progress 1 with status `Completed` after one call. -/
theorem advance_tick_spec (s : App) (t : Task) :
    (s.update.tasks = s.tasks.map fun kv => (kv.1, updateTask kv.2)) ∧
    (t.status = TaskStatus.Running → t.progress + 1 / 100 < 1 →
      updateTask t = { t with progress := t.progress + 1 / 100 }) ∧
    (t.status = TaskStatus.Running → 1 ≤ t.progress + 1 / 100 →
      updateTask t = { t with progress := 1, status := TaskStatus.Completed }) ∧
    (¬(t.status = TaskStatus.Running) → updateTask t = t) ∧
    (t.progress ≤ 1 → t.progress ≤ (updateTask t).progress) ∧
    (t.status = TaskStatus.Completed → updateTask t = t) ∧
    (t.status = TaskStatus.Running → t.progress = 991 / 1000 →
      updateTask t = { t with progress := 1, status := TaskStatus.Completed }) := by
  refine ⟨rfl, ?_, ?_, ?_, ?_, ?_, ?_⟩
  · intro hr hl
    simp only [updateTask, if_pos hr, if_neg (not_le.mpr hl)]
  · intro hr hg
    simp only [updateTask, if_pos hr, if_pos hg]
  · intro hr
    simp only [updateTask, if_neg hr]
  · intro hp
    by_cases hr : t.status = TaskStatus.Running
    · by_cases hg : 1 ≤ t.progress + 1 / 100
      · simp only [updateTask, if_pos hr, if_pos hg]
        exact hp
      · simp only [updateTask, if_pos hr, if_neg hg]
        linarith
    · simp only [updateTask, if_neg hr]
      exact le_rfl
  · intro hc
    have hr : ¬(t.status = TaskStatus.Running) := by rw [hc]; intro h; cases h
    simp only [updateTask, if_neg hr]
  · intro hr hp
    have hg : (1 : ℚ) ≤ t.progress + 1 / 100 := by rw [hp]; norm_num
    simp only [updateTask, if_pos hr, if_pos hg]

/-- Witness for `advance_tick_spec`: the task `taskB` is `Running` at
progress 0.991 and one tick completes it at progress exactly 1. -/
theorem advance_tick_spec_witness :
    taskB.status = TaskStatus.Running ∧ taskB.progress = 991 / 1000 ∧
    updateTask taskB =
      { taskB with progress := 1, status := TaskStatus.Completed } :=
  ⟨rfl, rfl, (advance_tick_spec twoTaskApp taskB).2.2.2.2.2.2 rfl rfl⟩

/-- `handle_key` sets `should_quit` whenever it returns `true`. -/
theorem handle_key_ret_quit (s : App) (k : KeyCode) :
    (s.handle_key k).2 = true → (s.handle_key k).1.should_quit = true := by
  cases k with
  | Char c => by_cases hc : c = 'q' <;> simp [App.handle_key, hc]
  | Esc => simp [App.handle_key]
  | Tab => simp [App.handle_key]
  | BackTab => simp [App.handle_key]
  | Down => simp [App.handle_key]
  | Up => simp [App.handle_key]
  | Other => simp [App.handle_key]

/-- Every invocation of the loop renders its entry state first, before
pulling any event (`terminal.draw` is the first statement of the loop
body). -/
theorem runApp_head (s : App) (es : List Event) :
    (runApp s es).1.head? = some s := by
  cases es with
  | nil => rfl
  | cons e es =>
      cases e with
      | Input k =>
          unfold runApp
          by_cases h1 : (s.handle_key k).2
          · simp [h1]
          · by_cases h2 : (s.handle_key k).1.should_quit <;> simp [h1, h2]
      | Tick =>
          unfold runApp
          by_cases h : (s.update).should_quit <;> simp [h]

/-- C3 counterexample: with the single queued event `q`, the loop's
final state has `should_quit = true`, but the only render call receives
the initial state (`should_quit = false`): the loop checks the result
of `handle_key` and breaks before any render of the post-quit state, so
the resulting state of the quit event is never rendered. -/
theorem quit_not_rendered_cex :
    (runApp twoTaskApp [Event.Input (KeyCode.Char 'q')]).2.should_quit = true ∧
    (runApp twoTaskApp [Event.Input (KeyCode.Char 'q')]).1.map App.should_quit
      = [false] ∧
    (runApp twoTaskApp [Event.Input (KeyCode.Char 'q')]).1.length = 1 := by
  refine ⟨rfl, rfl, rfl⟩

/-- C3 (amended): each iteration renders the current state before
pulling an event, so the state resulting from a non-breaking event is
exactly the next rendered state, before the next event is pulled; but
`should_quit` (via `handle_key`'s return value) is checked before that
render, so on a quit key event the loop terminates after processing
that event, never renders the post-quit state, and performs no render
call for any later queued event. -/
theorem render_order (s : App) (es : List Event) (k : KeyCode) (e : Event) :
    ((runApp s es).1.head? = some s) ∧
    ((s.handle_key k).2 = true →
      runApp s (Event.Input k :: es) = ([s], (s.handle_key k).1) ∧
      ((s.handle_key k).1).should_quit = true) ∧
    (stepQuits s e = false →
      (runApp s (e :: es)).1 = s :: (runApp (step s e) es).1 ∧
      (runApp s (e :: es)).1.tail.head? = some (step s e) ∧
      (runApp s (e :: es)).2 = (runApp (step s e) es).2) := by
  refine ⟨runApp_head s es, ?_, ?_⟩
  · intro hq
    refine ⟨?_, handle_key_ret_quit s k hq⟩
    simp [runApp, hq]
  · intro hnq
    cases e with
    | Input k0 =>
        simp only [stepQuits, Bool.or_eq_false_iff] at hnq
        obtain ⟨h1, h2⟩ := hnq
        have hs : step s (Event.Input k0) = (s.handle_key k0).1 := rfl
        have hr : runApp s (Event.Input k0 :: es)
            = (s :: (runApp (s.handle_key k0).1 es).1,
               (runApp (s.handle_key k0).1 es).2) := by
          simp [runApp, h1, h2]
        rw [hs, hr]
        exact ⟨rfl, runApp_head _ es, rfl⟩
    | Tick =>
        simp only [stepQuits] at hnq
        have hs : step s Event.Tick = s.update := rfl
        have hr : runApp s (Event.Tick :: es)
            = (s :: (runApp s.update es).1, (runApp s.update es).2) := by
          simp [runApp, hnq]
        rw [hs, hr]
        exact ⟨rfl, runApp_head _ es, rfl⟩

/-- Witness for `render_order`: concrete run with a quit key and a
tick on `twoTaskApp`. -/
theorem render_order_witness :
    ((runApp twoTaskApp []).1.head? = some twoTaskApp) ∧
    (runApp twoTaskApp [Event.Input (KeyCode.Char 'q')] =
        ([twoTaskApp], (twoTaskApp.handle_key (KeyCode.Char 'q')).1) ∧
      ((twoTaskApp.handle_key (KeyCode.Char 'q')).1).should_quit = true) ∧
    ((runApp twoTaskApp [Event.Tick]).1 =
        twoTaskApp :: (runApp (step twoTaskApp Event.Tick) []).1 ∧
      (runApp twoTaskApp [Event.Tick]).1.tail.head?
        = some (step twoTaskApp Event.Tick) ∧
      (runApp twoTaskApp [Event.Tick]).2
        = (runApp (step twoTaskApp Event.Tick) []).2) := by
  obtain ⟨h1, h2, h3⟩ :=
    render_order twoTaskApp [] (KeyCode.Char 'q') Event.Tick
  exact ⟨h1, h2 rfl, h3 rfl⟩

/-! ### The reachability invariants (C4 and C8) -/

theorem next_task_nil (s : App) (h : s.task_ids = []) : s.next_task = s := by
  unfold App.next_task
  simp [h]

theorem previous_task_nil (s : App) (h : s.task_ids = []) : s.previous_task = s := by
  unfold App.previous_task
  simp [h]

theorem next_task_inv (s : App) (h : AppInv s) : AppInv s.next_task := by
  obtain ⟨hsel, hmap, hnd⟩ := h
  by_cases hne : s.task_ids = []
  · rw [next_task_nil s hne]
    exact ⟨hsel, hmap, hnd⟩
  · obtain ⟨id, hmem, hsel2⟩ := next_task_sel s hne
    obtain ⟨f1, f2, f3, f4⟩ := next_task_frame s
    refine ⟨Or.inr ⟨id, ?_, hsel2⟩, ?_, ?_⟩
    · rw [f2]; exact hmem
    · rw [f1, f2]; exact hmap
    · rw [f2]; exact hnd

theorem previous_task_inv (s : App) (h : AppInv s) : AppInv s.previous_task := by
  obtain ⟨hsel, hmap, hnd⟩ := h
  by_cases hne : s.task_ids = []
  · rw [previous_task_nil s hne]
    exact ⟨hsel, hmap, hnd⟩
  · obtain ⟨id, hmem, hsel2⟩ := previous_task_sel s hne
    obtain ⟨f1, f2, f3, f4⟩ := previous_task_frame s
    refine ⟨Or.inr ⟨id, ?_, hsel2⟩, ?_, ?_⟩
    · rw [f2]; exact hmem
    · rw [f1, f2]; exact hmap
    · rw [f2]; exact hnd

theorem update_inv (s : App) (h : AppInv s) : AppInv s.update := by
  obtain ⟨hsel, hmap, hnd⟩ := h
  refine ⟨hsel, ?_, hnd⟩
  show (s.tasks.map fun kv => (kv.1, updateTask kv.2)).map Prod.fst = s.task_ids
  rw [List.map_map]
  exact hmap

theorem handle_key_inv (s : App) (k : KeyCode) (h : AppInv s) :
    AppInv (s.handle_key k).1 := by
  cases k with
  | Char c =>
      by_cases hc : c = 'q'
      · simp only [App.handle_key, if_pos hc]
        exact h
      · simp only [App.handle_key, if_neg hc]
        exact h
  | Esc => exact h
  | Tab => exact h
  | BackTab => exact h
  | Down => exact next_task_inv s h
  | Up => exact previous_task_inv s h
  | Other => exact h

theorem step_inv (s : App) (e : Event) (h : AppInv s) : AppInv (step s e) := by
  cases e with
  | Input k => exact handle_key_inv s k h
  | Tick => exact update_inv s h

theorem appInv_default : AppInv App.default := by
  refine ⟨Or.inl rfl, by decide, by decide⟩

/-- C4: from the initial state, every sequence of `handle_key` and
`update` operations preserves the standing registry invariant: the
selection is unset or an id of the ordered sequence, and the mapping
and the ordered sequence hold exactly the same ids in one-to-one
correspondence. -/
theorem registry_invariant_reachable (es : List Event) :
    AppInv (runSteps App.default es) := by
  have h : ∀ (s : App), AppInv s → AppInv (runSteps s es) := by
    induction es with
    | nil => exact fun s h => h
    | cons e es ih => exact fun s h => ih (step s e) (step_inv s e h)
  exact h App.default appInv_default

theorem handle_key_tasks (s : App) (k : KeyCode) :
    (s.handle_key k).1.tasks = s.tasks := by
  cases k with
  | Char c =>
      by_cases hc : c = 'q'
      · simp only [App.handle_key, if_pos hc]
      · simp only [App.handle_key, if_neg hc]
  | Esc => rfl
  | Tab => rfl
  | BackTab => rfl
  | Down => exact (next_task_frame s).1
  | Up => exact (previous_task_frame s).1
  | Other => rfl

theorem updateTask_completed (t : Task)
    (h : t.status = TaskStatus.Completed → t.progress = 1) :
    (updateTask t).status = TaskStatus.Completed → (updateTask t).progress = 1 := by
  by_cases hr : t.status = TaskStatus.Running
  · by_cases hg : 1 ≤ t.progress + 1 / 100
    · simp only [updateTask, if_pos hr, if_pos hg]
      intro _
      trivial
    · simp only [updateTask, if_pos hr, if_neg hg]
      intro hc
      simp [hr] at hc
  · simp only [updateTask, if_neg hr]
    exact h

theorem step_completed (s : App) (e : Event) (h : CompletedInv s) :
    CompletedInv (step s e) := by
  cases e with
  | Tick =>
      intro kv hkv
      simp only [step, App.update, List.mem_map] at hkv
      obtain ⟨kv0, hkv0, rfl⟩ := hkv
      exact updateTask_completed kv0.2 (h kv0 hkv0)
  | Input k =>
      intro kv hkv
      rw [show step s (Event.Input k) = (s.handle_key k).1 from rfl,
        handle_key_tasks s k] at hkv
      exact h kv hkv

theorem sampleTask_completed (i : Nat) :
    (sampleTask i).status = TaskStatus.Completed → (sampleTask i).progress = 1 := by
  unfold sampleTask
  rcases h4 : i % 4 with _ | _ | _ | k <;> simp [h4]

theorem completedInv_default : CompletedInv App.default := by
  intro kv hkv hst
  simp only [App.default, List.mem_map] at hkv
  obtain ⟨i, hi, rfl⟩ := hkv
  exact sampleTask_completed i hst

/-- C8: in the initial state and after every sequence of `handle_key`
and `update` operations, every task with status `Completed` has
progress exactly 1. -/
theorem completed_progress_one (es : List Event) :
    CompletedInv (runSteps App.default es) := by
  have h : ∀ (s : App), CompletedInv s → CompletedInv (runSteps s es) := by
    induction es with
    | nil => exact fun s h => h
    | cons e es ih => exact fun s h => ih (step s e) (step_completed s e h)
  exact h App.default completedInv_default

/-! ### The selection cycle (C5) -/

theorem position_getD_self (l : List String) (hnd : l.Nodup) (k : Nat)
    (hk : k < l.length) :
    position (l.getD k "") l = some k := by
  rw [List.getD_eq_getElem l "" hk]
  simpa [List.get_eq_getElem] using position_get_self l hnd k hk

theorem next_task_at (s : App) (hnd : s.task_ids.Nodup) (k : Nat)
    (hk : k < s.task_ids.length)
    (hsel : s.selected_task_id = some (s.task_ids.getD k "")) :
    s.next_task.selected_task_id
      = some (s.task_ids.getD ((k + 1) % s.task_ids.length) "") := by
  have hne : ¬(s.task_ids.isEmpty = true) := by
    simp only [List.isEmpty_iff]
    intro h
    rw [h] at hk
    simp at hk
  unfold App.next_task
  rw [if_neg hne]
  simp only [hsel, position_getD_self s.task_ids hnd k hk, Option.getD_some]

theorem iterNext_at :
    ∀ (n : Nat) (s : App), s.task_ids.Nodup → ∀ (k : Nat),
      k < s.task_ids.length →
      s.selected_task_id = some (s.task_ids.getD k "") →
      (iterNext n s).task_ids = s.task_ids ∧
      (iterNext n s).selected_task_id
        = some (s.task_ids.getD ((k + n) % s.task_ids.length) "") := by
  intro n
  induction n with
  | zero =>
      intro s hnd k hk hsel
      refine ⟨rfl, ?_⟩
      show s.selected_task_id = _
      rw [hsel, Nat.add_zero, Nat.mod_eq_of_lt hk]
  | succ n ih =>
      intro s hnd k hk hsel
      have hlen : 0 < s.task_ids.length := Nat.lt_of_le_of_lt (Nat.zero_le _) hk
      have hids : s.next_task.task_ids = s.task_ids := (next_task_frame s).2.1
      have hk1 : (k + 1) % s.task_ids.length < s.task_ids.length :=
        Nat.mod_lt _ hlen
      have h1 : s.next_task.selected_task_id
          = some (s.next_task.task_ids.getD
              ((k + 1) % s.next_task.task_ids.length) "") := by
        rw [hids]
        exact next_task_at s hnd k hk hsel
      have hnd1 : s.next_task.task_ids.Nodup := by rw [hids]; exact hnd
      have hk1' : (k + 1) % s.next_task.task_ids.length
          < s.next_task.task_ids.length := by
        rw [hids]; exact hk1
      obtain ⟨hids2, hsel2⟩ := ih s.next_task hnd1 _ hk1' h1
      have hiter : iterNext (n + 1) s = iterNext n s.next_task := rfl
      constructor
      · rw [hiter, hids2, hids]
      · rw [hiter, hsel2, hids]
        have harith : ((k + 1) % s.task_ids.length + n) % s.task_ids.length
            = (k + (n + 1)) % s.task_ids.length := by
          rw [Nat.mod_add_mod]
          have : k + 1 + n = k + (n + 1) := by omega
          rw [this]
        rw [harith]

theorem applyCalls_sel :
    ∀ (calls : List Bool) (s : App), s.task_ids ≠ [] →
      (applyCalls s calls).task_ids = s.task_ids ∧
      (calls ≠ [] → ∃ id, id ∈ s.task_ids ∧
        (applyCalls s calls).selected_task_id = some id) := by
  intro calls
  induction calls with
  | nil => exact fun s _ => ⟨rfl, fun h => absurd rfl h⟩
  | cons b bs ih =>
      intro s hne
      have hframe : (if b then s.next_task else s.previous_task).task_ids
          = s.task_ids := by
        cases b
        · exact (previous_task_frame s).2.1
        · exact (next_task_frame s).2.1
      have hne' : (if b then s.next_task else s.previous_task).task_ids ≠ [] := by
        rw [hframe]; exact hne
      obtain ⟨hids, hsel⟩ := ih (if b then s.next_task else s.previous_task) hne'
      have happ : applyCalls s (b :: bs)
          = applyCalls (if b then s.next_task else s.previous_task) bs := rfl
      constructor
      · rw [happ, hids, hframe]
      · intro _
        cases hbs : bs with
        | nil =>
            cases b
            · exact previous_task_sel s hne
            · exact next_task_sel s hne
        | cons c cs =>
            rw [hbs] at hsel
            obtain ⟨id, hmem, hs⟩ := hsel (by simp)
            rw [hframe] at hmem
            exact ⟨id, hmem, hs⟩

theorem iterNext_cycle (s : App) (hnd : s.task_ids.Nodup) (id : String)
    (hmem : id ∈ s.task_ids) (hsel : s.selected_task_id = some id) :
    (iterNext s.task_ids.length s).selected_task_id = s.selected_task_id := by
  obtain ⟨i, hi, hgi⟩ := List.mem_iff_getElem.mp hmem
  have hsel2 : s.selected_task_id = some (s.task_ids.getD i "") := by
    rw [List.getD_eq_getElem _ _ hi, hgi]
    exact hsel
  obtain ⟨-, hfin⟩ := iterNext_at s.task_ids.length s hnd i hi hsel2
  rw [hfin]
  have h2 : (i + s.task_ids.length) % s.task_ids.length = i := by
    rw [Nat.add_mod_right, Nat.mod_eq_of_lt hi]
  rw [h2, ← hsel2]

/-- C5: on a registry with a non-empty, duplicate-free id sequence of
length `N`, after any non-empty sequence of `next_task`/`previous_task`
calls the selection is an id of the sequence; whenever the selection is
an id of the sequence, `N` consecutive `next_task` calls return the
selection to its original value; and in particular after any non-empty
call sequence, `N` consecutive `next_task` calls leave the selection
where the sequence put it (cycle closure). -/
theorem selection_cycle (s : App) (hne : s.task_ids ≠ [])
    (hnd : s.task_ids.Nodup) :
    (∀ calls : List Bool, calls ≠ [] →
      ∃ id, id ∈ s.task_ids ∧ (applyCalls s calls).selected_task_id = some id) ∧
    (∀ id, id ∈ s.task_ids → s.selected_task_id = some id →
      (iterNext s.task_ids.length s).selected_task_id = s.selected_task_id) ∧
    (∀ calls : List Bool, calls ≠ [] →
      (iterNext s.task_ids.length (applyCalls s calls)).selected_task_id
        = (applyCalls s calls).selected_task_id) := by
  have hA : ∀ calls : List Bool, calls ≠ [] →
      ∃ id, id ∈ s.task_ids ∧ (applyCalls s calls).selected_task_id = some id :=
    fun calls hc => (applyCalls_sel calls s hne).2 hc
  refine ⟨hA, ?_, ?_⟩
  · intro id hmem hsel
    exact iterNext_cycle s hnd id hmem hsel
  · intro calls hc
    obtain ⟨id, hmem, hs⟩ := hA calls hc
    have hids := (applyCalls_sel calls s hne).1
    have h := iterNext_cycle (applyCalls s calls) (by rw [hids]; exact hnd) id
      (by rw [hids]; exact hmem) hs
    rw [hids] at h
    exact h

/-- Witness for `selection_cycle` at `selApp` (ids `["a", "b"]`,
selection `"a"`). -/
theorem selection_cycle_witness :
    (∀ calls : List Bool, calls ≠ [] →
      ∃ id, id ∈ selApp.task_ids ∧
        (applyCalls selApp calls).selected_task_id = some id) ∧
    (∀ id, id ∈ selApp.task_ids → selApp.selected_task_id = some id →
      (iterNext selApp.task_ids.length selApp).selected_task_id
        = selApp.selected_task_id) ∧
    (∀ calls : List Bool, calls ≠ [] →
      (iterNext selApp.task_ids.length (applyCalls selApp calls)).selected_task_id
        = (applyCalls selApp calls).selected_task_id) :=
  selection_cycle selApp (by decide) (by decide)

/-- Witness for `quit_monotone` at `twoTaskApp` with the Esc key. -/
theorem quit_monotone_witness :
    ((twoTaskApp.handle_key KeyCode.Esc).2 = true ↔
      KeyCode.Esc = KeyCode.Char 'q' ∨ KeyCode.Esc = KeyCode.Esc) ∧
    ((twoTaskApp.handle_key KeyCode.Esc).1.should_quit =
      (twoTaskApp.should_quit || (twoTaskApp.handle_key KeyCode.Esc).2)) ∧
    (twoTaskApp.should_quit = true →
      (twoTaskApp.handle_key KeyCode.Esc).1.should_quit = true) ∧
    twoTaskApp.update.should_quit = twoTaskApp.should_quit :=
  quit_monotone twoTaskApp KeyCode.Esc

end Crankshaft
